import Mathlib

set_option maxHeartbeats 1000000
set_option maxRecDepth 100000

/-! Shallow embedding of the medical-insurance dashboard core (src/src/App.jsx):
CSV parsing with dynamic numeric coercion, conjunctive filtering, summary
statistics, regional grouping through a JavaScript object, and derivation of the
filter options. JavaScript numbers are modelled as exact rationals extended with
the non-finite values Infinity, -Infinity and NaN; string-to-number conversion
follows the StringNumericLiteral grammar and parseFloat follows the
longest-prefix decimal grammar, both evaluated over rationals. -/

/-- A JavaScript numeric value: a finite rational, an infinity, or NaN. -/
inductive JsNum where
  | fin (q : ℚ)
  | posInf
  | negInf
  | nan
deriving DecidableEq

/-- A dynamically typed CSV cell value: a string or a number. -/
inductive Value where
  | str (s : String)
  | num (n : JsNum)
deriving DecidableEq

/-- Discriminator: is this value a number? -/
def Value.isNumber : Value → Bool
  | .num _ => true
  | .str _ => false

/-- JavaScript unary minus on numbers. -/
def JsNum.neg : JsNum → JsNum
  | .fin q => .fin (-q)
  | .posInf => .negInf
  | .negInf => .posInf
  | .nan => .nan

/-- ASCII whitespace recognised by the JavaScript trimming and parsing
functions used in the source. -/
def isJsWS (c : Char) : Bool :=
  c = ' ' || c = '\t' || c = '\n' || c = '\r' || c = '\x0b' || c = '\x0c'

/-- JavaScript String.prototype.trim restricted to ASCII whitespace. -/
def jsTrim (s : String) : String :=
  String.mk (((s.toList.dropWhile isJsWS).reverse.dropWhile isJsWS).reverse)

def isDigitChar (c : Char) : Bool := '0' ≤ c && c ≤ '9'

/-- Split a character list: longest prefix of decimal digits, and the rest. -/
def takeDigits : List Char → List Char × List Char
  | [] => ([], [])
  | c :: cs =>
    if isDigitChar c then
      let (ds, r) := takeDigits cs
      (c :: ds, r)
    else ([], c :: cs)

/-- Value of a list of decimal digits. -/
def digitsVal (ds : List Char) : ℕ :=
  ds.foldl (fun a c => 10 * a + (c.toNat - 48)) 0

/-- Multiply a rational mantissa by a signed power of ten. -/
def applyExp (m : ℚ) (e : ℤ) : ℚ :=
  if 0 ≤ e then m * 10 ^ e.toNat else m / 10 ^ (-e).toNat

/-- Rational value of an integer-digit part and a fraction-digit part. -/
def mantissa (ip fp : List Char) : ℚ :=
  (digitsVal ip : ℚ) + (digitsVal fp : ℚ) / 10 ^ fp.length

/-- Read the digits of an exponent part; if they are missing the exponent
marker is not consumed (`orig` is returned as the rest). -/
def expDigits (m : ℚ) (orig ds : List Char) (neg : Bool) : JsNum × List Char :=
  let (es, r) := takeDigits ds
  if es.isEmpty then (.fin m, orig)
  else (.fin (applyExp m (if neg then -(digitsVal es : ℤ) else (digitsVal es : ℤ))), r)

/-- Parse an optional exponent part after a mantissa; on failure nothing is
consumed. -/
def withExp (m : ℚ) (r : List Char) : JsNum × List Char :=
  match r with
  | c :: rest =>
    if c = 'e' || c = 'E' then
      match rest with
      | '+' :: rest2 => expDigits m r rest2 false
      | '-' :: rest2 => expDigits m r rest2 true
      | _ => expDigits m r rest false
    else (.fin m, r)
  | [] => (.fin m, [])

/-- Parse an unsigned decimal literal (JavaScript StrUnsignedDecimalLiteral:
Infinity, digits with optional fraction and exponent, or a leading-dot
fraction) as a prefix of the input, returning the value and the rest. -/
def parseUnsignedDec (cs : List Char) : Option (JsNum × List Char) :=
  match cs with
  | 'I' :: 'n' :: 'f' :: 'i' :: 'n' :: 'i' :: 't' :: 'y' :: rest => some (.posInf, rest)
  | _ =>
    let (ip, r1) := takeDigits cs
    match r1 with
    | '.' :: r1' =>
      let (fp, r2) := takeDigits r1'
      if ip.isEmpty && fp.isEmpty then none else some (withExp (mantissa ip fp) r2)
    | _ => if ip.isEmpty then none else some (withExp (mantissa ip []) r1)

/-- Parse an optionally signed decimal literal as a prefix of the input. -/
def parseSignedDec (cs : List Char) : Option (JsNum × List Char) :=
  match cs with
  | '+' :: rest => parseUnsignedDec rest
  | '-' :: rest => (parseUnsignedDec rest).map (fun p => (p.1.neg, p.2))
  | _ => parseUnsignedDec cs

/-- Value of a single hexadecimal digit character. -/
def hexVal (c : Char) : Option ℕ :=
  if '0' ≤ c && c ≤ '9' then some (c.toNat - 48)
  else if 'a' ≤ c && c ≤ 'f' then some (c.toNat - 87)
  else if 'A' ≤ c && c ≤ 'F' then some (c.toNat - 55)
  else none

/-- Value of a digit character in the given base (2, 8 or 16). -/
def baseDigitVal (base : ℕ) (c : Char) : Option ℕ :=
  (hexVal c).bind (fun v => if v < base then some v else none)

def baseValAux (base : ℕ) (acc : ℕ) : List Char → Option ℕ
  | [] => some acc
  | c :: cs =>
    match baseDigitVal base c with
    | some v => baseValAux base (base * acc + v) cs
    | none => none

/-- Value of a non-empty string of digits in the given base. -/
def baseVal (base : ℕ) (cs : List Char) : Option ℕ :=
  if cs.isEmpty then none else baseValAux base 0 cs

/-- Parse a whole-string non-decimal integer literal (0x/0o/0b prefixes). -/
def parseNonDecimal (cs : List Char) : Option ℚ :=
  match cs with
  | '0' :: b :: rest =>
    if b = 'x' || b = 'X' then (baseVal 16 rest).map (fun n => (n : ℚ))
    else if b = 'o' || b = 'O' then (baseVal 8 rest).map (fun n => (n : ℚ))
    else if b = 'b' || b = 'B' then (baseVal 2 rest).map (fun n => (n : ℚ))
    else none
  | _ => none

/-- JavaScript ToNumber on a string (the conversion performed by the global
isNaN): trim, empty means 0, otherwise the whole string must be a numeric
literal, else NaN. -/
def jsToNumber (s : String) : JsNum :=
  let cs := (jsTrim s).toList
  match cs with
  | [] => .fin 0
  | _ =>
    match parseNonDecimal cs with
    | some q => .fin q
    | none =>
      match parseSignedDec cs with
      | some (v, []) => v
      | _ => .nan

/-- JavaScript parseFloat: parse the longest signed-decimal-literal prefix
after leading whitespace; NaN when there is none. -/
def jsParseFloat (s : String) : JsNum :=
  match parseSignedDec (s.toList.dropWhile isJsWS) with
  | some (v, _) => v
  | none => .nan

/-- One CSV cell as stored by the parser: `let val = raw.trim();
if (val && !isNaN(val)) val = parseFloat(val);`. -/
def coerceCell (raw : String) : Value :=
  let val := jsTrim raw
  if val ≠ "" ∧ jsToNumber val ≠ JsNum.nan then Value.num (jsParseFloat val)
  else Value.str val

/-- JavaScript String.prototype.split with a single-character separator. -/
def splitOnChar (sep : Char) : List Char → List (List Char)
  | [] => [[]]
  | c :: cs =>
    if c = sep then [] :: splitOnChar sep cs
    else
      match splitOnChar sep cs with
      | [] => [[c]]
      | r :: rs => (c :: r) :: rs

def jsSplit (sep : Char) (s : String) : List String :=
  (splitOnChar sep s.toList).map String.mk

/-- A parsed row: one binding per header, in header order; `none` models the
JavaScript `undefined` produced for a missing trailing field. -/
abbrev RawRecord := List (String × Option Value)

/-- The parse step of the loader effect: trim the text, split into lines,
read the headers from line 0, and turn every non-blank remaining line into a
record, pairing values with headers positionally. -/
def parseCSV (text : String) : List RawRecord :=
  let lines := jsSplit '\n' (jsTrim text)
  let headers := (jsSplit ',' (lines.headD "")).map jsTrim
  (lines.drop 1).filterMap (fun line =>
    if jsTrim line = "" then none
    else
      let values := jsSplit ',' line
      some (headers.enum.map (fun p => (p.2, (values[p.1]?).map coerceCell))))

/-- Reading a property of a parsed row, with the JavaScript overwrite
semantics for duplicate headers (the last binding wins) and `none` for an
absent or undefined field. -/
def getField (r : RawRecord) (k : String) : Option Value :=
  r.foldl (fun acc p => if p.1 = k then p.2 else acc) none

/-- A typed record, per the documented schema of the dataset: the columns
age, bmi, children and charges hold numbers, the rest hold strings. -/
structure Record where
  age : ℚ
  sex : String
  bmi : ℚ
  children : ℚ
  smoker : String
  region : String
  charges : ℚ
deriving DecidableEq

/-- The filter selection: one value per dimension, "all" meaning no
constraint. -/
structure FilterSelection where
  region : String
  smoker : String
  sex : String
deriving DecidableEq

/-- The initial filter state of the component. -/
def initialFilters : FilterSelection := ⟨"all", "all", "all"⟩

/-- The predicate of the filter engine: conjunctive strict-equality match. -/
def passes (filters : FilterSelection) (item : Record) : Bool :=
  (filters.region == "all" || item.region == filters.region) &&
  (filters.smoker == "all" || item.smoker == filters.smoker) &&
  (filters.sex == "all" || item.sex == filters.sex)

/-- The filter engine (`filteredData` in the source). -/
def filteredData (data : List Record) (filters : FilterSelection) : List Record :=
  data.filter (passes filters)

/-- The summary statistics produced by the aggregator. -/
structure Stats where
  count : ℕ
  avgCharge : ℚ
  smokerPct : ℚ
deriving DecidableEq

/-- The aggregator (`stats` in the source): zero results on an empty input,
otherwise count, total charges divided by count, and smoker share times 100. -/
def stats (fd : List Record) : Stats :=
  if fd.length = 0 then ⟨0, 0, 0⟩
  else
    let totalCharges := fd.foldl (fun sum item => sum + item.charges) 0
    let smokerCount := (fd.filter (fun item => item.smoker == "yes")).length
    ⟨fd.length, totalCharges / (fd.length : ℚ),
      (smokerCount : ℚ) / (fd.length : ℚ) * 100⟩

/-- One group of the regional grouping: the raw region of its first record,
the running total of charges and the running count. -/
structure RegionGroup where
  region : String
  total : ℚ
  count : ℕ
deriving DecidableEq

/-- Own-property lookup in the `groups` object, represented as an association
list in property-creation order. A full JavaScript property read also walks
the prototype chain; that part is modelled by `isObjectProtoKey` below. -/
def findGroup : List (String × RegionGroup) → String → Option RegionGroup
  | [], _ => none
  | (k', g) :: t, k => if k' = k then some g else findGroup t k

/-- The property names a plain object `{}` inherits from Object.prototype.
Reading one of these keys on an object with no own property of that name
yields the inherited function (or, for `__proto__`, the prototype object),
which is truthy, so the grouping loop's `!groups[key]` creation test fails
and no own group is ever created for such a key. -/
def isObjectProtoKey (s : String) : Bool :=
  s == "constructor" || s == "hasOwnProperty" || s == "isPrototypeOf" ||
  s == "propertyIsEnumerable" || s == "toLocaleString" || s == "toString" ||
  s == "valueOf" || s == "__proto__" || s == "__defineGetter__" ||
  s == "__defineSetter__" || s == "__lookupGetter__" || s == "__lookupSetter__"

/-- One iteration of the grouping loop: `groups[key]` is truthy when an own
group exists or the key is inherited from Object.prototype, so a group is
created only for a first-seen, non-inherited key; the `+=` updates then only
affect an own group (updates through an inherited key mutate the inherited
object, which Object.values never returns). -/
def addItem (gs : List (String × RegionGroup)) (item : Record) : List (String × RegionGroup) :=
  let key := item.region
  let gs1 := if (findGroup gs key).isNone && !isObjectProtoKey key then
    gs ++ [(key, ⟨item.region, 0, 0⟩)] else gs
  gs1.map (fun p =>
    if p.1 = key then (p.1, ⟨p.2.region, p.2.total + item.charges, p.2.count + 1⟩) else p)

/-- The `groups` object after the forEach loop. -/
def groupsOf (fd : List Record) : List (String × RegionGroup) := fd.foldl addItem []

/-- Whether a string is a canonical array-index property key (the keys that
JavaScript objects enumerate first, in ascending numeric order). -/
def isArrayIndex (s : String) : Bool :=
  let cs := s.toList
  (!cs.isEmpty) && cs.all isDigitChar && (s == "0" || cs.headD '0' != '0')
    && digitsVal cs < 4294967295

/-- Ordering of array-index property keys by numeric value. -/
def keyNumLe (p q : String × RegionGroup) : Prop :=
  digitsVal p.1.toList ≤ digitsVal q.1.toList

instance : DecidableRel keyNumLe := fun p q => Nat.decLe _ _

/-- JavaScript Object.values: array-index keys first in ascending numeric
order, then the remaining keys in property-creation order. -/
def objectValues (gs : List (String × RegionGroup)) : List RegionGroup :=
  (List.insertionSort keyNumLe (gs.filter (fun p => isArrayIndex p.1))
    ++ gs.filter (fun p => !isArrayIndex p.1)).map Prod.snd

/-- `s.charAt(0).toUpperCase() + s.slice(1)`. -/
def capitalize (s : String) : String :=
  match s.toList with
  | [] => ""
  | c :: cs => String.mk (c.toUpper :: cs)

/-- One bar of the regional chart. -/
structure RegionEntry where
  name : String
  avgCharge : ℚ
deriving DecidableEq

/-- The regional grouping (`regionData` in the source). -/
def regionData (fd : List Record) : List RegionEntry :=
  (objectValues (groupsOf fd)).map (fun g =>
    ⟨capitalize g.region, g.total / (g.count : ℚ)⟩)

/-- Lexicographic order on the character lists of two strings, by code
point, as the default JavaScript sort comparator orders strings. -/
def charsLe : List Char → List Char → Bool
  | [], _ => true
  | _ :: _, [] => false
  | a :: as, b :: bs => if a = b then charsLe as bs else decide (a < b)

def strLe (a b : String) : Bool := charsLe a.toList b.toList

def strLeRel (a b : String) : Prop := strLe a b = true

instance : DecidableRel strLeRel := fun a b => Bool.decEq _ _

/-- The array after the in-place default sort. -/
def sortStrings (l : List String) : List String := List.insertionSort strLeRel l

/-- Iteration order of `new Set(l)`: first occurrences, in encounter order. -/
def jsSetDedupAux (seen : List String) : List String → List String
  | [] => []
  | x :: xs => if x ∈ seen then jsSetDedupAux seen xs else x :: jsSetDedupAux (x :: seen) xs

def jsSetDedup (l : List String) : List String := jsSetDedupAux [] l

/-- The option deriver for the region dropdown:
`['all', ...new Set(data.map(d => d.region).filter(Boolean).sort())]`. -/
def regions (data : List Record) : List String :=
  "all" :: jsSetDedup (sortStrings ((data.map (fun d => d.region)).filter (fun s => s != "")))

/-- The option deriver for the smoker dropdown. -/
def smokers (data : List Record) : List String :=
  "all" :: jsSetDedup (sortStrings ((data.map (fun d => d.smoker)).filter (fun s => s != "")))

/-- The option deriver for the sex dropdown. -/
def sexes (data : List Record) : List String :=
  "all" :: jsSetDedup (sortStrings ((data.map (fun d => d.sex)).filter (fun s => s != "")))

/-- Outcome of the fetch of the CSV resource. -/
inductive LoadOutcome where
  | success (text : String)
  | failure

/-- The component state touched by the load effect. -/
structure AppState where
  data : List RawRecord
  loading : Bool
deriving DecidableEq

/-- Initial component state: `useState([])`, `useState(true)`. -/
def initialState : AppState := ⟨[], true⟩

/-- The load effect: on success the parsed rows are stored and the loading
flag is cleared; on failure the catch handler only writes to console.error
(the returned Bool records whether it did), leaving the state untouched. -/
def handleLoad : AppState → LoadOutcome → AppState × Bool
  | _, .success text => (⟨parseCSV text, false⟩, false)
  | s, .failure => (s, true)

/-- Sum of the charges of a list of records (specification-side phrasing of
the reduce in the source). -/
def chargesSum (l : List Record) : ℚ := (l.map (fun r => r.charges)).sum

/-- The group that the grouping loop must build for an occurring region:
that region, the total charges of its records, and their number. -/
def groupFor (l : List Record) (k : String) : RegionGroup :=
  ⟨k, chargesSum (l.filter (fun r => r.region == k)),
    (l.filter (fun r => r.region == k)).length⟩

/-- Stated from the spec sentence for claim C4: a cell is to be coerced
exactly when its trimmed text parses as a finite numeric literal. -/
def parsesAsFiniteNumeric (s : String) : Bool :=
  match jsToNumber s with
  | .fin _ => true
  | _ => false

/-- The three-row CSV of the spec's concrete scenario. -/
def exampleCSV : String :=
  "age,sex,bmi,children,smoker,region,charges\n19,female,27.9,0,yes,southwest,16884.92\n18,male,33.77,1,no,southeast,1725.55\n28,male,33.0,3,no,southeast,4449.46"

def exRec1 : Record := ⟨19, "female", 27.9, 0, "yes", "southwest", 16884.92⟩

def exRec2 : Record := ⟨18, "male", 33.77, 1, "no", "southeast", 1725.55⟩

def exRec3 : Record := ⟨28, "male", 33.0, 3, "no", "southeast", 4449.46⟩

def exampleRecords : List Record := [exRec1, exRec2, exRec3]

/-- A record whose region is an Object.prototype property name: reading
`groups["toString"]` yields the inherited truthy toString function, so the
grouping loop never creates a group for it. -/
def protoRec : Record := ⟨30, "male", 25, 0, "no", "toString", 5⟩

/-- The raw row the parser must produce from CSV line 1. -/
def exRaw1 : RawRecord :=
  [("age", some (.num (.fin 19))), ("sex", some (.str "female")),
   ("bmi", some (.num (.fin 27.9))), ("children", some (.num (.fin 0))),
   ("smoker", some (.str "yes")), ("region", some (.str "southwest")),
   ("charges", some (.num (.fin 16884.92)))]

/-- The raw row the parser must produce from CSV line 2. -/
def exRaw2 : RawRecord :=
  [("age", some (.num (.fin 18))), ("sex", some (.str "male")),
   ("bmi", some (.num (.fin 33.77))), ("children", some (.num (.fin 1))),
   ("smoker", some (.str "no")), ("region", some (.str "southeast")),
   ("charges", some (.num (.fin 1725.55)))]

/-- The raw row the parser must produce from CSV line 3. -/
def exRaw3 : RawRecord :=
  [("age", some (.num (.fin 28))), ("sex", some (.str "male")),
   ("bmi", some (.num (.fin 33))), ("children", some (.num (.fin 3))),
   ("smoker", some (.str "no")), ("region", some (.str "southeast")),
   ("charges", some (.num (.fin 4449.46)))]

/-- A raw row and a typed record agree on the four fields the aggregates
consume. -/
def matchesRecord (raw : RawRecord) (r : Record) : Prop :=
  getField raw "region" = some (.str r.region) ∧
  getField raw "smoker" = some (.str r.smoker) ∧
  getField raw "sex" = some (.str r.sex) ∧
  getField raw "charges" = some (.num (.fin r.charges))

/-! ### Properties of the Set-based deduplication -/

theorem jsSetDedupAux_sublist : ∀ (l seen : List String), (jsSetDedupAux seen l).Sublist l := by
  intro l
  induction l with
  | nil => intro seen; simp [jsSetDedupAux]
  | cons x xs ih =>
    intro seen
    simp only [jsSetDedupAux]
    by_cases h : x ∈ seen
    · simp only [if_pos h]
      exact (ih seen).trans (List.sublist_cons_self x xs)
    · simp only [if_neg h]
      exact List.Sublist.cons₂ x (ih (x :: seen))

theorem mem_jsSetDedupAux : ∀ (l seen : List String) (a : String),
    a ∈ jsSetDedupAux seen l ↔ a ∈ l ∧ a ∉ seen := by
  intro l
  induction l with
  | nil => intro seen a; simp [jsSetDedupAux]
  | cons x xs ih =>
    intro seen a
    simp only [jsSetDedupAux]
    by_cases h : x ∈ seen
    · rw [if_pos h, ih]
      constructor
      · rintro ⟨ha, hs⟩
        exact ⟨List.mem_cons_of_mem _ ha, hs⟩
      · rintro ⟨ha, hs⟩
        rcases List.mem_cons.mp ha with rfl | ha'
        · exact absurd h hs
        · exact ⟨ha', hs⟩
    · rw [if_neg h]
      by_cases hax : a = x
      · subst hax
        simp [ih, h]
      · simp only [List.mem_cons, hax, false_or, ih, not_or]

theorem jsSetDedupAux_nodup : ∀ (l seen : List String), (jsSetDedupAux seen l).Nodup := by
  intro l
  induction l with
  | nil => intro seen; simp [jsSetDedupAux]
  | cons x xs ih =>
    intro seen
    simp only [jsSetDedupAux]
    by_cases h : x ∈ seen
    · simp only [if_pos h]; exact ih seen
    · simp only [if_neg h, List.nodup_cons]
      refine ⟨fun hx => ?_, ih (x :: seen)⟩
      exact ((mem_jsSetDedupAux xs (x :: seen) x).mp hx).2 (List.mem_cons_self x seen)

theorem jsSetDedupAux_congr : ∀ (l s s' : List String), (∀ a, a ∈ s ↔ a ∈ s') →
    jsSetDedupAux s l = jsSetDedupAux s' l := by
  intro l
  induction l with
  | nil => intro s s' _; rfl
  | cons x xs ih =>
    intro s s' h
    simp only [jsSetDedupAux]
    by_cases hx : x ∈ s
    · rw [if_pos hx, if_pos ((h x).mp hx)]
      exact ih s s' h
    · rw [if_neg hx, if_neg (fun hc => hx ((h x).mpr hc))]
      rw [ih (x :: s) (x :: s') (by intro a; simp [List.mem_cons, h a])]

theorem mem_jsSetDedup (l : List String) (a : String) : a ∈ jsSetDedup l ↔ a ∈ l := by
  simp [jsSetDedup, mem_jsSetDedupAux]

theorem jsSetDedup_nodup (l : List String) : (jsSetDedup l).Nodup :=
  jsSetDedupAux_nodup l []

theorem jsSetDedup_sublist (l : List String) : (jsSetDedup l).Sublist l :=
  jsSetDedupAux_sublist l []

/-! ### The string order used by the sort -/

theorem charsLe_total : ∀ (a b : List Char), charsLe a b = true ∨ charsLe b a = true := by
  intro a
  induction a with
  | nil => intro b; left; simp [charsLe]
  | cons x xs ih =>
    intro b
    cases b with
    | nil => right; simp [charsLe]
    | cons y ys =>
      simp only [charsLe]
      by_cases hxy : x = y
      · subst hxy
        simp only [if_pos rfl]
        exact ih ys
      · rw [if_neg hxy, if_neg (Ne.symm hxy)]
        rcases lt_or_gt_of_ne hxy with h | h
        · left; simp [h]
        · right; simp [h]

theorem charsLe_trans : ∀ (a b c : List Char),
    charsLe a b = true → charsLe b c = true → charsLe a c = true := by
  intro a
  induction a with
  | nil => intro b c _ _; simp [charsLe]
  | cons x xs ih =>
    intro b c hab hbc
    cases b with
    | nil => simp [charsLe] at hab
    | cons y ys =>
      cases c with
      | nil => simp [charsLe] at hbc
      | cons z zs =>
        simp only [charsLe] at hab hbc ⊢
        by_cases hxy : x = y
        · subst hxy
          by_cases hyz : x = z
          · subst hyz
            simp only [if_pos rfl] at hab hbc ⊢
            exact ih ys zs hab hbc
          · rw [if_neg hyz] at hbc ⊢
            exact hbc
        · rw [if_neg hxy] at hab
          have hxyl : x < y := by simpa using hab
          by_cases hyz : y = z
          · subst hyz
            rw [if_neg hxy]
            simp [hxyl]
          · rw [if_neg hyz] at hbc
            have hyzl : y < z := by simpa using hbc
            have hxzl : x < z := lt_trans hxyl hyzl
            rw [if_neg (ne_of_lt hxzl)]
            simp [hxzl]

instance : IsTotal String strLeRel :=
  ⟨fun a b => charsLe_total a.toList b.toList⟩

instance : IsTrans String strLeRel :=
  ⟨fun a b c hab hbc => charsLe_trans a.toList b.toList c.toList hab hbc⟩

theorem sortStrings_sorted (l : List String) : List.Sorted strLeRel (sortStrings l) :=
  List.sorted_insertionSort strLeRel l

theorem sortStrings_perm (l : List String) : (sortStrings l).Perm l :=
  List.perm_insertionSort strLeRel l

/-! ### The reduce of the statistics block -/

theorem foldl_add_charges : ∀ (l : List Record) (a : ℚ),
    l.foldl (fun sum item => sum + item.charges) a = a + chargesSum l := by
  intro l
  induction l with
  | nil => intro a; simp [chargesSum]
  | cons r t ih =>
    intro a
    simp only [List.foldl_cons, chargesSum, List.map_cons, List.sum_cons] at ih ⊢
    rw [ih]
    ring

/-! ### Properties of the regional grouping -/

theorem findGroup_map_update (gs : List (String × RegionGroup)) (key : String)
    (c : ℚ) (k : String) :
    findGroup (gs.map (fun p => if p.1 = key then
        (p.1, (⟨p.2.region, p.2.total + c, p.2.count + 1⟩ : RegionGroup)) else p)) k
      = if k = key then (findGroup gs k).map
          (fun g => (⟨g.region, g.total + c, g.count + 1⟩ : RegionGroup))
        else findGroup gs k := by
  induction gs with
  | nil => simp [findGroup]
  | cons p t ih =>
    obtain ⟨k', g⟩ := p
    rw [List.map_cons]
    have hhead : (if (k', g).1 = key then
        ((k', g).1, (⟨(k', g).2.region, (k', g).2.total + c, (k', g).2.count + 1⟩ : RegionGroup))
        else (k', g))
        = if k' = key then (k', (⟨g.region, g.total + c, g.count + 1⟩ : RegionGroup))
          else (k', g) := rfl
    rw [hhead]
    by_cases h1 : k' = key <;> by_cases h2 : k' = k
    · rw [if_pos h1]
      have hk : k = key := by rw [← h2, h1]
      rw [if_pos hk]
      simp [findGroup, h2]
    · rw [if_pos h1]
      have hk : ¬ k = key := fun hc => h2 (by rw [h1, ← hc])
      rw [if_neg hk]
      simp only [findGroup, if_neg h2]
      rw [ih, if_neg hk]
    · rw [if_neg h1]
      have hk : ¬ k = key := fun hc => h1 (by rw [h2, hc])
      rw [if_neg hk]
      simp only [findGroup, if_pos h2]
    · rw [if_neg h1]
      simp only [findGroup, if_neg h2]
      rw [ih]

theorem findGroup_append_single (gs : List (String × RegionGroup)) (key : String)
    (g0 : RegionGroup) (k : String) :
    findGroup (gs ++ [(key, g0)]) k
      = match findGroup gs k with
        | some g => some g
        | none => if key = k then some g0 else none := by
  induction gs with
  | nil => simp [findGroup]
  | cons p t ih =>
    obtain ⟨k', g⟩ := p
    by_cases h : k' = k
    · simp [findGroup, h]
    · rw [List.cons_append]
      simp only [findGroup, if_neg h]
      exact ih

theorem findGroup_addItem (gs : List (String × RegionGroup)) (item : Record) (k : String) :
    findGroup (addItem gs item) k
      = if k = item.region then
          (match findGroup gs item.region with
           | some g => some ⟨g.region, g.total + item.charges, g.count + 1⟩
           | none =>
             if isObjectProtoKey item.region then none
             else some ⟨item.region, 0 + item.charges, 0 + 1⟩)
        else findGroup gs k := by
  cases hfind : findGroup gs item.region with
  | none =>
    by_cases hproto : isObjectProtoKey item.region = true
    · have h1 : addItem gs item
          = gs.map (fun p : String × RegionGroup => if p.1 = item.region then
              (p.1, (⟨p.2.region, p.2.total + item.charges, p.2.count + 1⟩ : RegionGroup))
            else p) := by
        simp [addItem, hfind, hproto]
      rw [h1, findGroup_map_update]
      by_cases hk : k = item.region
      · rw [if_pos hk, if_pos hk, hk, hfind, if_pos hproto]
        rfl
      · rw [if_neg hk, if_neg hk]
    · have h1 : addItem gs item
          = gs.map (fun p : String × RegionGroup => if p.1 = item.region then
              (p.1, (⟨p.2.region, p.2.total + item.charges, p.2.count + 1⟩ : RegionGroup)) else p)
            ++ [(item.region, (⟨item.region, item.charges, 1⟩ : RegionGroup))] := by
        simp [addItem, hfind, hproto]
      rw [h1, findGroup_append_single, findGroup_map_update]
      by_cases hk : k = item.region
      · rw [if_pos hk, if_pos hk, hk, hfind, if_neg hproto]
        simp
      · rw [if_neg hk, if_neg hk]
        cases h2 : findGroup gs k with
        | some g => rfl
        | none =>
          have hne : ¬item.region = k := fun hc => hk hc.symm
          simp [hne]
  | some g =>
    have h1 : addItem gs item
        = gs.map (fun p : String × RegionGroup => if p.1 = item.region then
            (p.1, (⟨p.2.region, p.2.total + item.charges, p.2.count + 1⟩ : RegionGroup)) else p) := by
      simp [addItem, hfind]
    rw [h1, findGroup_map_update]
    by_cases hk : k = item.region
    · rw [if_pos hk, if_pos hk, hk, hfind]
      rfl
    · rw [if_neg hk, if_neg hk]

theorem findGroup_foldl (l : List Record) : ∀ (gs : List (String × RegionGroup)) (k : String),
    findGroup (l.foldl addItem gs) k
      = match findGroup gs k with
        | some g => some ⟨g.region, g.total + chargesSum (l.filter (fun r => r.region == k)),
            g.count + (l.filter (fun r => r.region == k)).length⟩
        | none =>
          if isObjectProtoKey k then none
          else if (l.filter (fun r => r.region == k)).length = 0 then none
          else some ⟨k, chargesSum (l.filter (fun r => r.region == k)),
            (l.filter (fun r => r.region == k)).length⟩ := by
  induction l with
  | nil =>
    intro gs k
    cases h : findGroup gs k <;> simp [chargesSum, h]
  | cons r t ih =>
    intro gs k
    rw [List.foldl_cons, ih (addItem gs r) k, findGroup_addItem]
    by_cases hk : k = r.region
    · rw [if_pos hk, hk]
      have hfc : (List.filter (fun x => x.region == r.region) (r :: t))
          = r :: List.filter (fun x => x.region == r.region) t := by
        simp [List.filter_cons]
      rw [hfc]
      cases h : findGroup gs r.region with
      | some g =>
        simp only [chargesSum, List.map_cons, List.sum_cons, List.length_cons,
          Option.some.injEq, RegionGroup.mk.injEq]
        refine ⟨trivial, by ring, by omega⟩
      | none =>
        by_cases hproto : isObjectProtoKey r.region = true
        · simp [hproto]
        · rw [if_neg hproto, if_neg hproto]
          simp only [chargesSum, List.map_cons, List.sum_cons, List.length_cons]
          rw [if_neg (Nat.succ_ne_zero _)]
          rw [if_neg hproto]
          simp only [Option.some.injEq, RegionGroup.mk.injEq]
          refine ⟨trivial, by ring, by omega⟩
    · rw [if_neg hk]
      have hfc : (List.filter (fun x => x.region == k) (r :: t))
          = List.filter (fun x => x.region == k) t := by
        simp only [List.filter_cons]
        rw [if_neg (by simp only [beq_iff_eq]; exact fun hc => hk hc.symm)]
      rw [hfc]

theorem findGroup_eq_none_iff (gs : List (String × RegionGroup)) (k : String) :
    findGroup gs k = none ↔ k ∉ gs.map Prod.fst := by
  induction gs with
  | nil => simp [findGroup]
  | cons p t ih =>
    obtain ⟨k', g⟩ := p
    by_cases h : k' = k
    · simp [findGroup, h]
    · simp only [findGroup, if_neg h, List.map_cons, List.mem_cons, ih]
      constructor
      · intro hn hc
        rcases hc with hc | hc
        · exact h hc.symm
        · exact hn hc
      · intro hn hc
        exact hn (Or.inr hc)

theorem keys_addItem (gs : List (String × RegionGroup)) (item : Record) :
    (addItem gs item).map Prod.fst
      = if item.region ∈ gs.map Prod.fst ∨ isObjectProtoKey item.region = true
        then gs.map Prod.fst
        else gs.map Prod.fst ++ [item.region] := by
  have hupd : ∀ (l : List (String × RegionGroup)),
      (l.map (fun p : String × RegionGroup => if p.1 = item.region then
        (p.1, (⟨p.2.region, p.2.total + item.charges, p.2.count + 1⟩ : RegionGroup)) else p)).map
          Prod.fst = l.map Prod.fst := by
    intro l
    rw [List.map_map]
    refine List.map_congr_left (fun p _ => ?_)
    by_cases h : p.1 = item.region <;> simp [h]
  by_cases hmem : item.region ∈ gs.map Prod.fst
  · rw [if_pos (Or.inl hmem)]
    have hcond : ¬ ((findGroup gs item.region).isNone && !isObjectProtoKey item.region) = true := by
      cases hf : findGroup gs item.region with
      | none => exact absurd ((findGroup_eq_none_iff gs item.region).mp hf) (by simpa using hmem)
      | some g => simp
    simp only [addItem]
    rw [if_neg hcond]
    exact hupd gs
  · by_cases hproto : isObjectProtoKey item.region = true
    · rw [if_pos (Or.inr hproto)]
      have hcond : ¬ ((findGroup gs item.region).isNone && !isObjectProtoKey item.region) = true := by
        simp [hproto]
      simp only [addItem]
      rw [if_neg hcond]
      exact hupd gs
    · rw [if_neg (by rintro (hc | hc); exacts [hmem hc, hproto hc])]
      have hcond : ((findGroup gs item.region).isNone && !isObjectProtoKey item.region) = true := by
        rw [(findGroup_eq_none_iff gs item.region).mpr hmem]
        simp [hproto]
      simp only [addItem]
      rw [if_pos hcond, hupd, List.map_append]
      rfl

theorem keys_foldl (l : List Record) : ∀ (gs : List (String × RegionGroup)),
    (l.foldl addItem gs).map Prod.fst
      = gs.map Prod.fst ++ jsSetDedupAux (gs.map Prod.fst)
          ((l.map (fun r => r.region)).filter (fun k => !isObjectProtoKey k)) := by
  induction l with
  | nil => intro gs; simp [jsSetDedupAux]
  | cons r t ih =>
    intro gs
    rw [List.foldl_cons, ih (addItem gs r), keys_addItem, List.map_cons, List.filter_cons]
    by_cases hproto : isObjectProtoKey r.region = true
    · rw [if_pos (Or.inr hproto), if_neg (by simp [hproto])]
    · by_cases hmem : r.region ∈ gs.map Prod.fst
      · rw [if_pos (Or.inl hmem), if_pos (by simp [hproto])]
        simp only [jsSetDedupAux, if_pos hmem]
      · rw [if_neg (by rintro (hc | hc); exacts [hmem hc, hproto hc]),
          if_pos (by simp [hproto])]
        simp only [jsSetDedupAux, if_neg hmem]
        rw [List.append_assoc, List.singleton_append]
        congr 1
        congr 1
        exact jsSetDedupAux_congr
          ((t.map (fun r => r.region)).filter (fun k => !isObjectProtoKey k))
          (gs.map Prod.fst ++ [r.region]) (r.region :: gs.map Prod.fst)
          (by intro a; simp [List.mem_append, List.mem_cons, or_comm])

theorem groupsOf_keys (l : List Record) :
    (groupsOf l).map Prod.fst
      = jsSetDedup ((l.map (fun r => r.region)).filter (fun k => !isObjectProtoKey k)) := by
  rw [groupsOf, keys_foldl l []]
  rfl

theorem groupsOf_keys_nodup (l : List Record) : ((groupsOf l).map Prod.fst).Nodup := by
  rw [groupsOf_keys]
  exact jsSetDedup_nodup _

theorem mem_iff_findGroup : ∀ (gs : List (String × RegionGroup)),
    (gs.map Prod.fst).Nodup → ∀ (k : String) (g : RegionGroup),
    ((k, g) ∈ gs ↔ findGroup gs k = some g) := by
  intro gs
  induction gs with
  | nil => intro _ k g; simp [findGroup]
  | cons p t ih =>
    intro hnd k g
    obtain ⟨k', g'⟩ := p
    simp only [List.map_cons, List.nodup_cons] at hnd
    by_cases h : k' = k
    · subst h
      have hfg : findGroup ((k', g') :: t) k' = some g' := by simp [findGroup]
      rw [hfg]
      simp only [List.mem_cons, Option.some.injEq, Prod.mk.injEq]
      constructor
      · rintro (⟨_, rfl⟩ | hmem)
        · rfl
        · exact absurd (List.mem_map_of_mem Prod.fst hmem) hnd.1
      · rintro rfl
        exact Or.inl ⟨trivial, rfl⟩
    · simp only [findGroup, if_neg h, List.mem_cons, Prod.mk.injEq]
      rw [← ih hnd.2 k g]
      constructor
      · rintro (⟨hc, _⟩ | hmem)
        · exact absurd hc.symm h
        · exact hmem
      · exact fun hmem => Or.inr hmem

theorem findGroup_groupsOf (l : List Record) (k : String) :
    findGroup (groupsOf l) k
      = if isObjectProtoKey k then none
        else if (l.filter (fun r => r.region == k)).length = 0 then none
        else some (groupFor l k) := by
  rw [groupsOf, findGroup_foldl l [] k]
  rfl

theorem groupsOf_content (l : List Record) :
    ∀ p, p ∈ groupsOf l → p.2 = groupFor l p.1 := by
  intro p hp
  obtain ⟨k, g⟩ := p
  have h := (mem_iff_findGroup (groupsOf l) (groupsOf_keys_nodup l) k g).mp hp
  rw [findGroup_groupsOf] at h
  by_cases hproto : isObjectProtoKey k = true
  · rw [if_pos hproto] at h
    exact absurd h (by simp)
  · rw [if_neg hproto] at h
    by_cases hlen : (l.filter (fun r => r.region == k)).length = 0
    · rw [if_pos hlen] at h
      exact absurd h (by simp)
    · rw [if_neg hlen] at h
      exact (Option.some.injEq _ _ ▸ h.symm)

theorem map_snd_groupsOf (l : List Record) :
    (groupsOf l).map Prod.snd
      = (jsSetDedup ((l.map (fun r => r.region)).filter (fun k => !isObjectProtoKey k))).map
          (groupFor l) := by
  rw [← groupsOf_keys, List.map_map]
  exact List.map_congr_left (fun p hp => groupsOf_content l p hp)

theorem objectValues_perm (gs : List (String × RegionGroup)) :
    (objectValues gs).Perm (gs.map Prod.snd) := by
  unfold objectValues
  refine List.Perm.map Prod.snd ?_
  refine List.Perm.trans (List.Perm.append_right _ (List.perm_insertionSort keyNumLe _)) ?_
  exact List.filter_append_perm _ gs

theorem objectValues_eq_of_no_index (gs : List (String × RegionGroup))
    (h : ∀ p, p ∈ gs → isArrayIndex p.1 = false) :
    objectValues gs = gs.map Prod.snd := by
  unfold objectValues
  have h1 : gs.filter (fun p => isArrayIndex p.1) = [] :=
    List.filter_eq_nil_iff.mpr (fun p hp => by simp [h p hp])
  have h2 : gs.filter (fun p => !isArrayIndex p.1) = gs :=
    List.filter_eq_self.mpr (fun p hp => by simp [h p hp])
  rw [h1, h2]
  rfl

/-! ### Claim theorems -/

/-- C1: for every filtered record sequence the aggregator returns
count = length of the sequence, averageCharge = sum of the records' charges
divided by count, and smokerPercentage = (number of records whose smoker field
equals "yes") / count * 100; on the empty sequence all three results are
exactly 0 — the empty case is guarded, the function is total, and no division
by zero happens. -/
theorem stats_spec :
    (∀ fd : List Record,
      (stats fd).count = fd.length ∧
      (stats fd).avgCharge
        = (if fd.length = 0 then 0 else chargesSum fd / (fd.length : ℚ)) ∧
      (stats fd).smokerPct
        = (if fd.length = 0 then 0 else
            (((fd.filter (fun r => r.smoker == "yes")).length : ℚ) / (fd.length : ℚ)) * 100)) ∧
    stats [] = ⟨0, 0, 0⟩ := by
  constructor
  · intro fd
    by_cases h : fd.length = 0
    · have hnil : fd = [] := List.length_eq_zero.mp h
      subst hnil
      simp [stats]
    · simp only [stats, if_neg h]
      refine ⟨trivial, ?_, trivial⟩
      rw [foldl_add_charges fd 0, zero_add]
  · rfl

/-- C2: the filter engine keeps a record iff for each of the three dimensions
the selection is "all" or the record's value equals it; the output is a
subsequence of the input in the original order (the input list itself is a
pure function argument and is not modified). -/
theorem filteredData_spec :
    ∀ (data : List Record) (filters : FilterSelection),
      (filteredData data filters).Sublist data ∧
      (∀ r : Record, r ∈ filteredData data filters ↔ r ∈ data ∧
        ((filters.region = "all" ∨ r.region = filters.region) ∧
         (filters.smoker = "all" ∨ r.smoker = filters.smoker) ∧
         (filters.sex = "all" ∨ r.sex = filters.sex))) := by
  intro data filters
  refine ⟨List.filter_sublist data, fun r => ?_⟩
  rw [filteredData, List.mem_filter]
  simp [passes, beq_iff_eq, and_assoc]

/-- C5, counterexample: the claim requires that after a failed load the
loading indicator is cleared; the catch handler only logs, so the loading
flag stays true. -/
theorem loadFailure_claim_counterexample :
    ¬ ((handleLoad initialState LoadOutcome.failure).2 = true ∧
       (handleLoad initialState LoadOutcome.failure).1.data = [] ∧
       (handleLoad initialState LoadOutcome.failure).1.loading = false) := by
  decide

/-- C5, amended: on a failed load the failure is logged, the dataset remains
empty, there is no retry, but the loading flag remains true: the application
stays in the loading state, not in an empty-but-not-loading state. -/
theorem loadFailure_behavior :
    (∀ s : AppState, handleLoad s LoadOutcome.failure = (s, true)) ∧
    initialState.data = [] ∧ initialState.loading = true ∧
    (handleLoad initialState LoadOutcome.failure).1.loading = true :=
  ⟨fun _ => rfl, rfl, rfl, rfl⟩

/-- C4, counterexample: the claim coerces a cell exactly when its trimmed text
parses as a finite numeric literal, so it would keep "Infinity" as a string;
the code coerces "Infinity" to a number. -/
theorem coerceCell_claim_counterexample :
    ¬ (∀ s : String, (coerceCell s).isNumber = true ↔
        (jsTrim s ≠ "" ∧ parsesAsFiniteNumeric (jsTrim s) = true)) := by
  intro h
  have h2 := (h "Infinity").mp (by decide)
  exact absurd h2.2 (by decide)

/-- C4, amended: a cell is coerced to a number exactly when its trimmed text
is non-empty and ToNumber of it is not NaN — a test that also accepts
non-finite literals, so "Infinity" is stored as the number Infinity; any cell
failing the test is stored unchanged as its trimmed string, and any coerced
cell stores parseFloat of its trimmed string. -/
theorem coerceCell_characterization :
    (∀ s : String,
      ((coerceCell s).isNumber = true ↔ (jsTrim s ≠ "" ∧ jsToNumber (jsTrim s) ≠ JsNum.nan)) ∧
      ((coerceCell s).isNumber = false → coerceCell s = Value.str (jsTrim s)) ∧
      ((coerceCell s).isNumber = true → coerceCell s = Value.num (jsParseFloat (jsTrim s)))) ∧
    coerceCell "Infinity" = Value.num JsNum.posInf := by
  constructor
  · intro s
    simp only [coerceCell]
    by_cases h : jsTrim s ≠ "" ∧ jsToNumber (jsTrim s) ≠ JsNum.nan
    · rw [if_pos h]
      simp [Value.isNumber, h]
    · rw [if_neg h]
      simp [Value.isNumber, h]
  · decide

/-- Witness for the amended C4 claim: "abc" fails the numeric test and is
stored as the trimmed string. -/
theorem coerceCell_characterization_witness :
    coerceCell "abc" = Value.str (jsTrim "abc") :=
  (coerceCell_characterization.1 "abc").2.1 (by decide)

/-- Summing the per-region filter lengths over the distinct occurring regions
gives back the length of the list: the grouping is a partition. -/
theorem sum_group_counts (fd : List Record) :
    ((jsSetDedup (fd.map (fun r => r.region))).map
      (fun k => (fd.filter (fun r => r.region == k)).length)).sum = fd.length := by
  have h1 : ∀ k, (fd.filter (fun r => r.region == k)).length
      = (fd.map (fun r => r.region)).count k := by
    intro k
    rw [List.count_eq_countP, List.countP_map, List.countP_eq_length_filter]
    rfl
  have h2 : (jsSetDedup (fd.map (fun r => r.region))).Perm
      (fd.map (fun r => r.region)).dedup := by
    refine (List.perm_ext_iff_of_nodup (jsSetDedup_nodup _) (List.nodup_dedup _)).mpr ?_
    intro a
    rw [mem_jsSetDedup, List.mem_dedup]
  have h3 :
      ((jsSetDedup (fd.map (fun r => r.region))).map
        (fun k => (fd.filter (fun r => r.region == k)).length)).sum
      = ((jsSetDedup (fd.map (fun r => r.region))).map
        (fun k => (fd.map (fun r => r.region)).count k)).sum := by
    congr 1
    exact List.map_congr_left (fun k _ => h1 k)
  rw [h3, List.Perm.sum_eq (List.Perm.map _ h2),
    List.sum_map_count_dedup_eq_length, List.length_map]

/-- C3, counterexample: the claim emits one entry per occurring region, but
for a record with region "toString" the read groups["toString"] finds the
inherited truthy Object.prototype.toString, the creation branch is skipped,
and the program emits no entry at all for that region. -/
theorem regionData_claim_counterexample :
    ("toString" ∈ ([protoRec] : List Record).map (fun r => r.region)) ∧
    regionData [protoRec] = [] := by
  constructor
  · decide
  · decide

/-- C3, amended: the regional grouping partitions the filtered records by the
raw region value, except that a region whose name is an Object.prototype
property (toString, constructor, __proto__, ...) never gets a group, because
`!groups[key]` sees the truthy inherited value: up to the object's
enumeration order the grouping emits one entry per distinct occurring
non-inherited region (none for absent regions, none for inherited-name
regions), each entry's avgCharge is the group's total charges divided by the
group size, and each display name is the raw region string with its first
character upper-cased. -/
theorem regionData_partition :
    ∀ fd : List Record,
      (regionData fd).Perm
        ((jsSetDedup ((fd.map (fun r => r.region)).filter (fun k => !isObjectProtoKey k))).map
          (fun k =>
            ({ name := capitalize k,
               avgCharge := chargesSum (fd.filter (fun r => r.region == k)) /
                 (((fd.filter (fun r => r.region == k)).length : ℕ) : ℚ) } : RegionEntry))) ∧
      (∀ k, k ∈ jsSetDedup ((fd.map (fun r => r.region)).filter (fun k => !isObjectProtoKey k))
          ↔ k ∈ fd.map (fun r => r.region) ∧ isObjectProtoKey k = false) ∧
      (jsSetDedup ((fd.map (fun r => r.region)).filter (fun k => !isObjectProtoKey k))).Nodup := by
  intro fd
  refine ⟨?_, ?_, jsSetDedup_nodup _⟩
  · have hperm : (regionData fd).Perm (((groupsOf fd).map Prod.snd).map (fun g =>
        (⟨capitalize g.region, g.total / (g.count : ℚ)⟩ : RegionEntry))) :=
      List.Perm.map _ (objectValues_perm _)
    have heq : ((groupsOf fd).map Prod.snd).map (fun g =>
        (⟨capitalize g.region, g.total / (g.count : ℚ)⟩ : RegionEntry))
        = (jsSetDedup ((fd.map (fun r => r.region)).filter (fun k => !isObjectProtoKey k))).map
          (fun k =>
            ({ name := capitalize k,
               avgCharge := chargesSum (fd.filter (fun r => r.region == k)) /
                 (((fd.filter (fun r => r.region == k)).length : ℕ) : ℚ) } : RegionEntry)) := by
      rw [map_snd_groupsOf, List.map_map]
      rfl
    exact heq ▸ hperm
  · intro k
    rw [mem_jsSetDedup, List.mem_filter]
    simp

/-- Relativised partition count: summing the per-region filter lengths over
the distinct occurring non-inherited regions gives the number of records
whose region is not an inherited property name. -/
theorem sum_group_counts_nonproto (fd : List Record) :
    ((jsSetDedup ((fd.map (fun r => r.region)).filter (fun k => !isObjectProtoKey k))).map
      (fun k => (fd.filter (fun r => r.region == k)).length)).sum
      = (fd.filter (fun r => !isObjectProtoKey r.region)).length := by
  have hcol : (fd.map (fun r => r.region)).filter (fun k => !isObjectProtoKey k)
      = (fd.filter (fun r => !isObjectProtoKey r.region)).map (fun r => r.region) := by
    rw [List.filter_map]
    rfl
  rw [hcol]
  have hmapeq : ((jsSetDedup ((fd.filter (fun r => !isObjectProtoKey r.region)).map
        (fun r => r.region))).map (fun k => (fd.filter (fun r => r.region == k)).length))
      = ((jsSetDedup ((fd.filter (fun r => !isObjectProtoKey r.region)).map
        (fun r => r.region))).map (fun k =>
          ((fd.filter (fun r => !isObjectProtoKey r.region)).filter
            (fun r => r.region == k)).length)) := by
    refine List.map_congr_left (fun k hk => ?_)
    obtain ⟨r0, hr0, hr0k⟩ := List.mem_map.mp ((mem_jsSetDedup _ _).mp hk)
    have hkproto : isObjectProtoKey k = false := by
      rw [← hr0k]
      simpa using (List.mem_filter.mp hr0).2
    congr 1
    rw [List.filter_filter]
    refine List.filter_congr (fun r _ => ?_)
    cases hbeq : r.region == k with
    | true =>
      have : r.region = k := by simpa using hbeq
      simp [this, hkproto]
    | false => simp
  rw [hmapeq]
  exact sum_group_counts (fd.filter (fun r => !isObjectProtoKey r.region))

/-- C8, counterexample: a single record with region "toString" has filtered
length 1 but produces no group, so the group sizes sum to 0, not to the
filtered length. -/
theorem regionData_counts_counterexample :
    ((objectValues (groupsOf [protoRec])).map (fun g => g.count)).sum = 0 ∧
    ([protoRec] : List Record).length = 1 ∧
    ¬ ((objectValues (groupsOf [protoRec])).map (fun g => g.count)).sum
        = ([protoRec] : List Record).length := by
  refine ⟨by decide, rfl, by decide⟩

/-- C8, amended: the regional grouping emits no entry for a region absent
from the filtered sequence, one chart entry corresponds to each group, and
the group sizes over all emitted groups sum to the number of filtered records
whose region is not an Object.prototype property name (a record with an
inherited-name region is counted into no group at all). -/
theorem regionData_counts :
    ∀ fd : List Record,
      ((objectValues (groupsOf fd)).map (fun g => g.count)).sum
        = (fd.filter (fun r => !isObjectProtoKey r.region)).length ∧
      (regionData fd).length = (objectValues (groupsOf fd)).length ∧
      (∀ g, g ∈ objectValues (groupsOf fd) → g.region ∈ fd.map (fun r => r.region)) := by
  intro fd
  refine ⟨?_, by simp [regionData], ?_⟩
  · have hperm : (((objectValues (groupsOf fd)).map (fun g => g.count)).sum
        = (((groupsOf fd).map Prod.snd).map (fun g => g.count)).sum) :=
      List.Perm.sum_eq (List.Perm.map _ (objectValues_perm _))
    rw [hperm, map_snd_groupsOf, List.map_map]
    exact sum_group_counts_nonproto fd
  · intro g hg
    have hmem : g ∈ (groupsOf fd).map Prod.snd := ((objectValues_perm _).mem_iff).mp hg
    obtain ⟨p, hp, hps⟩ := List.mem_map.mp hmem
    have hcontent := groupsOf_content fd p hp
    have hkey : p.1 ∈ (groupsOf fd).map Prod.fst := List.mem_map_of_mem Prod.fst hp
    rw [groupsOf_keys] at hkey
    have hreg : g.region = p.1 := by rw [← hps, hcontent]; rfl
    rw [hreg]
    exact (List.mem_filter.mp ((mem_jsSetDedup _ _).mp hkey)).1

/-- C10, counterexample: "toString" is not an array-index-like string, yet
the program emits no entry for it, so the chart entries do not list every
occurring region in first-occurrence order. -/
theorem regionData_order_counterexample :
    (∀ r, r ∈ ([protoRec] : List Record) → isArrayIndex r.region = false) ∧
    regionData [protoRec]
      ≠ (jsSetDedup (([protoRec] : List Record).map (fun r => r.region))).map (fun k =>
        ({ name := capitalize k,
           avgCharge := chargesSum (([protoRec] : List Record).filter (fun r => r.region == k)) /
             (((([protoRec] : List Record).filter (fun r => r.region == k)).length : ℕ) : ℚ) }
          : RegionEntry)) := by
  refine ⟨by decide, ?_⟩
  intro hc
  have h0 : regionData [protoRec] = [] := by decide
  rw [h0] at hc
  have h1 := congrArg List.length hc
  have h2 : (jsSetDedup (([protoRec] : List Record).map (fun r => r.region))).length = 1 := by
    decide
  simp only [List.length_nil, List.length_map, h2] at h1
  exact absurd h1 (by decide)

/-- C10, amended: when every region value is a string that is neither an
array-index key nor an Object.prototype property name, Object.values
enumerates the groups in property-creation order, so the chart entries appear
in order of first occurrence of each region in the filtered sequence. -/
theorem regionData_first_occurrence :
    ∀ fd : List Record,
      (∀ r, r ∈ fd → isArrayIndex r.region = false) →
      (∀ r, r ∈ fd → isObjectProtoKey r.region = false) →
      regionData fd = (jsSetDedup (fd.map (fun r => r.region))).map (fun k =>
        ({ name := capitalize k,
           avgCharge := chargesSum (fd.filter (fun r => r.region == k)) /
             (((fd.filter (fun r => r.region == k)).length : ℕ) : ℚ) } : RegionEntry)) := by
  intro fd h hp
  have hfcol : (fd.map (fun r => r.region)).filter (fun k => !isObjectProtoKey k)
      = fd.map (fun r => r.region) := by
    refine List.filter_eq_self.mpr ?_
    intro k hk
    obtain ⟨r, hr, hrk⟩ := List.mem_map.mp hk
    rw [← hrk]
    simp [hp r hr]
  have hkeys : ∀ p, p ∈ groupsOf fd → isArrayIndex p.1 = false := by
    intro p hpmem
    have hkey : p.1 ∈ (groupsOf fd).map Prod.fst := List.mem_map_of_mem Prod.fst hpmem
    rw [groupsOf_keys, hfcol] at hkey
    obtain ⟨r, hr, hrk⟩ := List.mem_map.mp ((mem_jsSetDedup _ _).mp hkey)
    rw [← hrk]
    exact h r hr
  have h1 : regionData fd = ((groupsOf fd).map Prod.snd).map (fun g =>
      (⟨capitalize g.region, g.total / (g.count : ℚ)⟩ : RegionEntry)) := by
    rw [regionData, objectValues_eq_of_no_index _ hkeys]
  rw [h1, map_snd_groupsOf, hfcol, List.map_map]
  rfl

/-- Witness for the amended C10 at the example dataset: no region is
array-index-like or an inherited property name, and the chart entries come in
first-occurrence order. -/
theorem regionData_first_occurrence_witness :
    (∀ r, r ∈ exampleRecords → isArrayIndex r.region = false) ∧
    (∀ r, r ∈ exampleRecords → isObjectProtoKey r.region = false) ∧
    regionData exampleRecords
      = (jsSetDedup (exampleRecords.map (fun r => r.region))).map (fun k =>
        ({ name := capitalize k,
           avgCharge := chargesSum (exampleRecords.filter (fun r => r.region == k)) /
             (((exampleRecords.filter (fun r => r.region == k)).length : ℕ) : ℚ) } : RegionEntry)) :=
  ⟨by decide, by decide,
    regionData_first_occurrence exampleRecords (by decide) (by decide)⟩

/-- C9: for every non-empty filtered sequence the smoker percentage lies in
[0, 100], and when all charges are non-negative the average charge is
non-negative. -/
theorem stats_bounds :
    ∀ fd : List Record, fd ≠ [] →
      (0 ≤ (stats fd).smokerPct ∧ (stats fd).smokerPct ≤ 100) ∧
      ((∀ r, r ∈ fd → 0 ≤ r.charges) → 0 ≤ (stats fd).avgCharge) := by
  intro fd hne
  have hlen : ¬ fd.length = 0 := fun hc => hne (List.length_eq_zero.mp hc)
  have hlpos : 0 < (fd.length : ℚ) := by
    have h : 0 < fd.length := Nat.pos_of_ne_zero hlen
    exact_mod_cast h
  simp only [stats, if_neg hlen]
  refine ⟨⟨?_, ?_⟩, ?_⟩
  · positivity
  · have hsle : ((fd.filter (fun r => r.smoker == "yes")).length : ℚ) ≤ (fd.length : ℚ) := by
      exact_mod_cast List.length_filter_le _ fd
    have hdiv : ((fd.filter (fun r => r.smoker == "yes")).length : ℚ) / (fd.length : ℚ) ≤ 1 :=
      (div_le_one hlpos).mpr hsle
    calc ((fd.filter (fun r => r.smoker == "yes")).length : ℚ) / (fd.length : ℚ) * 100
        ≤ 1 * 100 := mul_le_mul_of_nonneg_right hdiv (by norm_num)
      _ = 100 := one_mul 100
  · intro hch
    rw [foldl_add_charges fd 0, zero_add]
    apply div_nonneg ?_ hlpos.le
    apply List.sum_nonneg
    intro x hx
    obtain ⟨r, hr, rfl⟩ := List.mem_map.mp hx
    exact hch r hr

/-- Witness for C9 at the singleton example list. -/
theorem stats_bounds_witness :
    ([exRec1] : List Record) ≠ [] ∧
    (0 ≤ (stats [exRec1]).smokerPct ∧ (stats [exRec1]).smokerPct ≤ 100) ∧
    0 ≤ (stats [exRec1]).avgCharge :=
  ⟨List.cons_ne_nil _ _, (stats_bounds [exRec1] (List.cons_ne_nil _ _)).1,
   (stats_bounds [exRec1] (List.cons_ne_nil _ _)).2 (by
      intro r hr
      rw [List.mem_singleton.mp hr]
      norm_num [exRec1])⟩

/-- Shared shape of the three option lists: sorted, duplicate-free, and
holding exactly the non-empty values of the column. -/
theorem optionColumn_spec (col : List String) :
    List.Sorted strLeRel (jsSetDedup (sortStrings (col.filter (fun s => s != "")))) ∧
    (jsSetDedup (sortStrings (col.filter (fun s => s != "")))).Nodup ∧
    (∀ s, s ∈ jsSetDedup (sortStrings (col.filter (fun s => s != ""))) ↔ s ∈ col ∧ s ≠ "") := by
  refine ⟨?_, jsSetDedup_nodup _, ?_⟩
  · exact List.Pairwise.sublist (jsSetDedup_sublist _) (sortStrings_sorted _)
  · intro s
    rw [mem_jsSetDedup, (sortStrings_perm _).mem_iff, List.mem_filter]
    simp [bne_iff_ne]

/-- C6: each option list starts with the sentinel "all" followed by the
distinct non-empty (non-falsy) values of its column in lexicographic order
with duplicates collapsed; on the example dataset the region options are
exactly ["all", "southeast", "southwest"]. -/
theorem optionDeriver_spec :
    ∀ data : List Record,
      ((regions data).head? = some "all" ∧
        List.Sorted strLeRel (regions data).tail ∧
        ((regions data).tail).Nodup ∧
        (∀ s, s ∈ (regions data).tail ↔ s ∈ data.map (fun d => d.region) ∧ s ≠ "")) ∧
      ((smokers data).head? = some "all" ∧
        List.Sorted strLeRel (smokers data).tail ∧
        ((smokers data).tail).Nodup ∧
        (∀ s, s ∈ (smokers data).tail ↔ s ∈ data.map (fun d => d.smoker) ∧ s ≠ "")) ∧
      ((sexes data).head? = some "all" ∧
        List.Sorted strLeRel (sexes data).tail ∧
        ((sexes data).tail).Nodup ∧
        (∀ s, s ∈ (sexes data).tail ↔ s ∈ data.map (fun d => d.sex) ∧ s ≠ "")) ∧
      regions exampleRecords = ["all", "southeast", "southwest"] := by
  intro data
  obtain ⟨hs1, hn1, hm1⟩ := optionColumn_spec (data.map (fun d => d.region))
  obtain ⟨hs2, hn2, hm2⟩ := optionColumn_spec (data.map (fun d => d.smoker))
  obtain ⟨hs3, hn3, hm3⟩ := optionColumn_spec (data.map (fun d => d.sex))
  exact ⟨⟨rfl, hs1, hn1, hm1⟩, ⟨rfl, hs2, hn2, hm2⟩, ⟨rfl, hs3, hn3, hm3⟩, by decide⟩

/-- C7: parsing the three-line example CSV yields exactly three records with
the expected typed values; with the all-"all" selection nothing is filtered
out; the aggregates are count 3, average charge
(16884.92 + 1725.55 + 4449.46) / 3 and smoker percentage 100 / 3; and the
regional chart shows Southwest with average 16884.92 and Southeast with
average (1725.55 + 4449.46) / 2. -/
theorem example_pipeline :
    parseCSV exampleCSV = [exRaw1, exRaw2, exRaw3] ∧
    (parseCSV exampleCSV).length = 3 ∧
    matchesRecord exRaw1 exRec1 ∧ matchesRecord exRaw2 exRec2 ∧ matchesRecord exRaw3 exRec3 ∧
    filteredData exampleRecords initialFilters = exampleRecords ∧
    stats (filteredData exampleRecords initialFilters)
      = ⟨3, (16884.92 + 1725.55 + 4449.46) / 3, 100 / 3⟩ ∧
    regionData (filteredData exampleRecords initialFilters)
      = [⟨"Southwest", (16884.92 : ℚ)⟩, ⟨"Southeast", (1725.55 + 4449.46) / 2⟩] := by
  have hparse : parseCSV exampleCSV = [exRaw1, exRaw2, exRaw3] := by
    simp [parseCSV, exampleCSV, jsTrim, isJsWS, jsSplit, splitOnChar, coerceCell,
      jsToNumber, parseNonDecimal, parseSignedDec, parseUnsignedDec,
      takeDigits, isDigitChar, withExp, expDigits, mantissa, digitsVal, jsParseFloat,
      exRaw1, exRaw2, exRaw3, List.enum, List.enumFrom, Function.comp, String.toList]
    norm_num
  have hfilter : filteredData exampleRecords initialFilters = exampleRecords := by
    simp [filteredData, exampleRecords, initialFilters, passes, exRec1, exRec2, exRec3]
  have hstats : stats exampleRecords = ⟨3, (16884.92 + 1725.55 + 4449.46) / 3, 100 / 3⟩ := by
    simp [stats, exampleRecords, exRec1, exRec2, exRec3, Stats.mk.injEq]
    norm_num
  have hregion : regionData exampleRecords
      = [⟨"Southwest", (16884.92 : ℚ)⟩, ⟨"Southeast", (1725.55 + 4449.46) / 2⟩] := by
    have hc1 : capitalize "southwest" = "Southwest" := by decide
    have hc2 : capitalize "southeast" = "Southeast" := by decide
    simp [regionData, groupsOf, addItem, findGroup, objectValues, isArrayIndex, isDigitChar,
      isObjectProtoKey, exampleRecords, exRec1, exRec2, exRec3, List.insertionSort, keyNumLe,
      digitsVal, hc1, hc2, RegionEntry.mk.injEq]
  refine ⟨hparse, by rw [hparse]; rfl, ?_, ?_, ?_, hfilter,
    by rw [hfilter]; exact hstats, by rw [hfilter]; exact hregion⟩
  · simp [matchesRecord, getField, exRaw1, exRec1]
  · simp [matchesRecord, getField, exRaw2, exRec2]
  · simp [matchesRecord, getField, exRaw3, exRec3]

/-- Witness for C8: the southwest group of the example dataset is emitted and
its region occurs in the data. -/
theorem regionData_counts_witness :
    ((⟨"southwest", (16884.92 : ℚ), 1⟩ : RegionGroup) ∈ objectValues (groupsOf exampleRecords)) ∧
    ((⟨"southwest", (16884.92 : ℚ), 1⟩ : RegionGroup).region
      ∈ exampleRecords.map (fun r => r.region)) := by
  have hmem : (⟨"southwest", (16884.92 : ℚ), 1⟩ : RegionGroup)
      ∈ objectValues (groupsOf exampleRecords) := by
    simp [objectValues, groupsOf, addItem, findGroup, isArrayIndex, isDigitChar, digitsVal,
      isObjectProtoKey, exampleRecords, exRec1, exRec2, exRec3, List.insertionSort, keyNumLe,
      RegionGroup.mk.injEq]
  exact ⟨hmem, (regionData_counts exampleRecords).2.2 _ hmem⟩
